import Mathlib

/-!
Verification of the generated-content ingestion pipeline of the LMS
application in `src/app.py`: the quiz-response parser inside
`generate_quiz`, the quiz persistence guard, the Moodle catalog import
(`moodle_import` and `import_modules_for_course`), the per-module
analytics aggregation, and the quiz scoring in `student_quiz`.

Python strings are modelled as `List Char` (a Python `str` is a sequence
of code points), so that `strip`, `startswith`, `split` and `join` are
ordinary list functions whose behaviour can be reasoned about directly.
-/

namespace LMS

/-! ## Python string primitives -/

/-- Characters stripped by Python's `str.strip()` with no argument
(the ASCII whitespace characters; the inputs of interest are ASCII). -/
def pyIsSpace (c : Char) : Bool :=
  c == ' ' || c == '\t' || c == '\n' || c == '\r' || c == '\x0b' || c == '\x0c'

/-- Python `str.strip()`: drop whitespace from both ends. -/
def pyStrip (s : List Char) : List Char :=
  ((s.dropWhile pyIsSpace).reverse.dropWhile pyIsSpace).reverse

/-- Convert a Lean string literal to the `List Char` model. -/
def lit (s : String) : List Char := s.data

/-- Worker for Python `str.split(sep)` with a fixed separator: scan left to
right, cutting at each non-overlapping occurrence of `sep`. `acc` holds the
characters of the current field in reverse; after a match the remaining
`skip` characters of the separator are consumed without being examined,
which gives Python's non-overlapping matching. -/
def pySplitGo (sep : List Char) : List Char → Nat → List Char → List (List Char)
  | [], _, acc => [acc.reverse]
  | _ :: rest, skip + 1, acc => pySplitGo sep rest skip acc
  | c :: rest, 0, acc =>
    if sep.isPrefixOf (c :: rest) then
      acc.reverse :: pySplitGo sep rest (sep.length - 1) []
    else
      pySplitGo sep rest 0 (c :: acc)

/-- Python `str.split(sep)` for a non-empty separator. -/
def pySplit (sep s : List Char) : List (List Char) :=
  pySplitGo sep s 0 []

/-- Python `sep.join(parts)`. -/
def pyJoin (sep : List Char) : List (List Char) → List Char
  | [] => []
  | [x] => x
  | x :: xs => x ++ sep ++ pyJoin sep xs

/-! ## The quiz response parser

`generate_quiz` in `src/app.py` (lines 375-414) splits the generated text
on newlines and runs a line-oriented accumulator with three registers
(`question_text`, `options`, `correct_answer`), storing a question whenever
all three registers are (Python-)truthy at a numbered marker or at the end
of the input. -/

/-- A parsed question before persistence (the spec's GeneratedQuestion). -/
structure GeneratedQuestion where
  question : List Char
  options : List (List Char)
  answer : List Char
deriving DecidableEq, Repr

/-- The parser's loop state: the three accumulator variables of the Python
loop plus the questions stored so far (in storage order). -/
structure ParseState where
  question_text : List Char
  options : List (List Char)
  correct_answer : List Char
  emitted : List GeneratedQuestion
deriving DecidableEq, Repr

/-- The Python truthiness test `question_text and options and correct_answer`
guarding each store. -/
def completeQ (st : ParseState) : Bool :=
  !st.question_text.isEmpty && !st.options.isEmpty && !st.correct_answer.isEmpty

/-- `line.startswith(('1)', '2)', '3)', '4)', '5)'))`. -/
def startsNumbered (line : List Char) : Bool :=
  [lit "1)", lit "2)", lit "3)", lit "4)", lit "5)"].any (fun p => p.isPrefixOf line)

/-- `line.startswith(('A)', 'B)', 'C)', 'D)'))`. -/
def startsOption (line : List Char) : Bool :=
  [lit "A)", lit "B)", lit "C)", lit "D)"].any (fun p => p.isPrefixOf line)

/-- One iteration of the `for line in lines` loop of `generate_quiz`.
On a numbered marker: store the current question if complete (resetting all
three registers), then set `question_text` to the stripped text after the
two-character marker. On an option marker: append the full stripped line.
On a line starting with the literal `Correct answer:`: set
`correct_answer` to the stripped text after the last occurrence of the
marker (`line.split("Correct answer:")[-1].strip()`). Anything else is
ignored. -/
def processLine (st : ParseState) (raw : List Char) : ParseState :=
  let line := pyStrip raw
  if startsNumbered line then
    let st1 :=
      if completeQ st then
        { question_text := [], options := [], correct_answer := [],
          emitted := st.emitted ++ [⟨st.question_text, st.options, st.correct_answer⟩] }
      else st
    { st1 with question_text := pyStrip (line.drop 2) }
  else if startsOption line then
    { st with options := st.options ++ [line] }
  else if (lit "Correct answer:").isPrefixOf line then
    { st with correct_answer := pyStrip ((pySplit (lit "Correct answer:") line).getLastD []) }
  else
    st

/-- The initial loop state (`question_text = ""`, `options = []`,
`correct_answer = ""`). -/
def initState : ParseState := ⟨[], [], [], []⟩

/-- The trailing store after the loop (`if question_text and options and
correct_answer` at lines 407-414 of `src/app.py`). -/
def finalize (st : ParseState) : List GeneratedQuestion :=
  if completeQ st then
    st.emitted ++ [⟨st.question_text, st.options, st.correct_answer⟩]
  else
    st.emitted

/-- The whole parsing pass of `generate_quiz`: split the generated text on
newlines, fold the loop body over the lines, and store the trailing
question if it is complete. -/
def parse (text : List Char) : List GeneratedQuestion :=
  finalize ((pySplit (lit "\n") text).foldl processLine initState)

/-! ## Quiz persistence guard

`generate_quiz` (lines 364-418) first checks
`QuizQuestion.query.filter_by(module_id=module.id).all()` and skips
generation entirely if any row exists; otherwise it runs the generation
backend, parses the text, and stores one `QuizQuestion` row per emitted
question with the options pipe-joined. -/

/-- A persisted `QuizQuestion` row. The `options` column holds the
pipe-joined option list (`"|".join(options)`). -/
structure QuizQuestion where
  id : Nat
  question : List Char
  options : List Char
  answer : List Char
  module_id : Nat
deriving DecidableEq, Repr

/-- The storage-boundary serialization of an option list. -/
def storedOptions (opts : List (List Char)) : List Char :=
  pyJoin (lit "|") opts

/-- The `generate_quiz` route on one module: `table` is the QuizQuestion
table, `nextId` the next free row id, `generated_text` the text returned by
the generation backend. Returns the new table and whether the generation
backend was invoked at all. -/
def generate_quiz (table : List QuizQuestion) (nextId : Nat) (module_id : Nat)
    (generated_text : List Char) : List QuizQuestion × Bool :=
  let existing_questions := table.filter (fun q => q.module_id == module_id)
  if !existing_questions.isEmpty then
    (table, false)
  else
    let rows := (parse generated_text).enum.map
      (fun p => QuizQuestion.mk (nextId + p.1) p.2.question (storedOptions p.2.options)
        p.2.answer module_id)
    (table ++ rows, true)

/-! ## Scoring: the student quiz submission and the analytics aggregation -/

/-- A persisted `QuizAttempt` row. Scores are modelled as rationals (the
Python floats involved are exact on the inputs of interest). -/
structure QuizAttempt where
  user_id : Nat
  module_id : Nat
  score : ℚ
deriving DecidableEq, Repr

/-- The POST branch of `student_quiz` (lines 509-523): count the questions
of the module whose submitted option equals the stored answer
(`request.form.get` yields `None` for a missing field, which never equals a
string), compute `(correct_count / len(quiz_questions)) * 100`, and append
one `QuizAttempt`. A module with no stored questions makes the division
raise `ZeroDivisionError`, modelled as `none`. -/
def student_quiz (questions : List QuizQuestion) (attempts : List QuizAttempt)
    (module_id user_id : Nat) (form : Nat → Option (List Char)) :
    Option (List QuizAttempt) :=
  let quiz_questions := questions.filter (fun q => q.module_id == module_id)
  let correct_count := quiz_questions.countP (fun q => form q.id == some q.answer)
  if quiz_questions.length = 0 then
    none
  else
    let score := ((correct_count : ℚ) / (quiz_questions.length : ℚ)) * 100
    some (attempts ++ [⟨user_id, module_id, score⟩])

/-- Python `round` to an integer: nearest integer, ties to even. -/
def pyRoundInt (q : ℚ) : ℤ :=
  let f := ⌊q⌋
  if q - f < 1 / 2 then f
  else if (1 : ℚ) / 2 < q - f then f + 1
  else if f % 2 = 0 then f else f + 1

/-- Python `round(x, 2)`. -/
def pyRound2 (x : ℚ) : ℚ :=
  (pyRoundInt (x * 100) : ℚ) / 100

/-- One row of the per-module statistics computed by `analytics`
(lines 436-466). -/
structure ModuleStats where
  avg_score : Option ℚ
  max_score : Option ℚ
  min_score : Option ℚ
  attempts_count : Nat
deriving DecidableEq, Repr

/-- The statistics `analytics` computes for one module: filter the attempts
of the module; with no attempts every statistic is `None` and the count 0,
otherwise average, maximum and minimum of the scores, rounded to two
decimal places, and the count. A pure read of the attempt table. -/
def moduleAnalytics (attempts : List QuizAttempt) (m : Nat) : ModuleStats :=
  let scores := (attempts.filter (fun a => a.module_id == m)).map (fun a => a.score)
  match scores with
  | [] => ⟨none, none, none, 0⟩
  | s :: rest =>
    let avg_score := (s :: rest).sum / ((s :: rest).length : ℚ)
    let max_score := rest.foldl max s
    let min_score := rest.foldl min s
    ⟨some (pyRound2 avg_score), some (pyRound2 max_score), some (pyRound2 min_score),
      (s :: rest).length⟩

/-! ## Moodle catalog import

`moodle_import` (lines 588-647) fetches the remote course list; a fetch
failure is caught, reported, and aborts the import with no writes. Each
remote course is matched locally by exact title (`fullname`, defaulting to
"Untitled"); a missing course is created (committed at once, so later
lookups see it). `import_modules_for_course` (lines 541-586) then fetches
the course contents and creates every content item whose dedup lookup by
`(module.get("name"), local course id)` finds nothing; an exception in it
is caught per course and the loop continues. -/

/-- A local `Course` row. -/
structure Course where
  id : Nat
  title : String
  description : String
deriving DecidableEq, Repr

/-- A local `Module` row (the quiz-related columns play no part in
the import and are omitted). -/
structure Module where
  title : String
  content : String
  course_id : Nat
deriving DecidableEq, Repr

/-- A course object of the remote `core_course_get_courses` answer; the
fields may be absent. -/
structure RemoteCourse where
  id : Nat
  fullname : Option String
  summary : Option String
deriving DecidableEq, Repr

/-- A content item (one element of a section's `modules` list) of the
remote `core_course_get_contents` answer. -/
structure ContentItem where
  name : Option String
  description : Option String
deriving DecidableEq, Repr

/-- A section of the remote `core_course_get_contents` answer. -/
structure Sect where
  summary : Option String
  modules : List ContentItem
deriving DecidableEq, Repr

/-- The local store as the import sees it: the course and module tables and
the id the next created course receives. -/
structure Db where
  courses : List Course
  modules : List Module
  nextCourseId : Nat
deriving DecidableEq, Repr

/-- Python `x or y` for an optional string `x` (`None` and the empty string
are falsy), as in `module.get("description") or section.get("summary", "")`. -/
def pyOrElse (x : Option String) (y : String) : String :=
  match x with
  | none => y
  | some s => if s = "" then y else s

/-- The dedup lookup
`Module.query.filter_by(title=module.get("name"), course_id=...).first()`.
When the item has no name the lookup compares the non-nullable title column
against SQL NULL, which matches no stored row. -/
def moduleExists (mods : List Module) (name : Option String) (cid : Nat) : Bool :=
  match name with
  | none => false
  | some n => mods.any (fun m => m.title == n && m.course_id == cid)

/-- The body of the inner loop of `import_modules_for_course` for one
content item: skip it if the dedup lookup finds a module, otherwise create
one, with the name defaulting to "Untitled Module" and the content falling
back from the item description to the section summary to the empty string. -/
def importItem (cid : Nat) (sectionSummary : String) (acc : List Module × Nat)
    (item : ContentItem) : List Module × Nat :=
  if moduleExists acc.1 item.name cid then
    acc
  else
    (acc.1 ++ [⟨item.name.getD "Untitled Module", pyOrElse item.description sectionSummary, cid⟩],
      acc.2 + 1)

/-- One section of the contents listing. -/
def importSection (cid : Nat) (acc : List Module × Nat) (sect : Sect) : List Module × Nat :=
  sect.modules.foldl (importItem cid (sect.summary.getD "")) acc

/-- `import_modules_for_course` on an already fetched contents listing:
returns the module table after the run and the number of created modules. -/
def import_modules_for_course (sections : List Sect) (cid : Nat) (mods : List Module) :
    List Module × Nat :=
  sections.foldl (importSection cid) (mods, 0)

/-- The running accumulator of the course loop of `moodle_import`. -/
structure ImportAcc where
  db : Db
  imported_courses : Nat
  imported_modules : Nat
  warnings : Nat
deriving DecidableEq, Repr

/-- The body of the course loop of `moodle_import` for one remote course:
look the course up by exact title (creating and committing it if absent),
then fetch and import its contents; a failed contents fetch is caught and
recorded as one warning flash, leaving the modules and the module count
untouched. -/
def processCourse (fetchContents : Nat → Except String (List Sect))
    (acc : ImportAcc) (mc : RemoteCourse) : ImportAcc :=
  let title := mc.fullname.getD "Untitled"
  let description := mc.summary.getD "No description provided"
  match acc.db.courses.find? (fun c => c.title == title) with
  | some local_course =>
    match fetchContents mc.id with
    | .error _ => { acc with warnings := acc.warnings + 1 }
    | .ok sections =>
      let r := import_modules_for_course sections local_course.id acc.db.modules
      { acc with
        db := { acc.db with modules := r.1 }
        imported_modules := acc.imported_modules + r.2 }
  | none =>
    let local_course : Course := ⟨acc.db.nextCourseId, title, description⟩
    let db1 : Db :=
      { acc.db with
        courses := acc.db.courses ++ [local_course]
        nextCourseId := acc.db.nextCourseId + 1 }
    match fetchContents mc.id with
    | .error _ =>
      { acc with
        db := db1
        imported_courses := acc.imported_courses + 1
        warnings := acc.warnings + 1 }
    | .ok sections =>
      let r := import_modules_for_course sections local_course.id db1.modules
      { db := { db1 with modules := r.1 }
        imported_courses := acc.imported_courses + 1
        imported_modules := acc.imported_modules + r.2
        warnings := acc.warnings }

/-- The outcome of one `moodle_import` run: the store, the reported counts
of created courses and modules, the fatal fetch error if any, and the
number of per-course warning flashes. -/
structure MoodleImportResult where
  db : Db
  imported_courses : Nat
  imported_modules : Nat
  fetchError : Option String
  warnings : Nat
deriving DecidableEq, Repr

/-- The POST branch of `moodle_import`: a failed top-level course fetch is
caught and aborts the run with no writes; otherwise the course loop runs
over the fetched list. -/
def moodle_import (fetchCourses : Except String (List RemoteCourse))
    (fetchContents : Nat → Except String (List Sect)) (db : Db) : MoodleImportResult :=
  match fetchCourses with
  | .error e => ⟨db, 0, 0, some e, 0⟩
  | .ok moodle_courses =>
    let a := moodle_courses.foldl (processCourse fetchContents) ⟨db, 0, 0, 0⟩
    ⟨a.db, a.imported_courses, a.imported_modules, none, a.warnings⟩

/-- The saturation property a run of `moodle_import` leaves behind for one
remote course: the title lookup finds a local course, and every named
content item of the course's fetched listing already has a module under the
dedup key for that local course. -/
def courseCovered (fetchContents : Nat → Except String (List Sect)) (db : Db)
    (mc : RemoteCourse) : Prop :=
  ∃ c, db.courses.find? (fun x => x.title == mc.fullname.getD "Untitled") = some c ∧
    ∀ s, fetchContents mc.id = Except.ok s → ∀ sect ∈ s, ∀ item ∈ sect.modules,
      moduleExists db.modules item.name c.id = true

/-! ## Parser lemmas -/

/-- A question record with all three fields non-empty. -/
def goodQ (q : GeneratedQuestion) : Prop :=
  q.question ≠ [] ∧ q.options ≠ [] ∧ q.answer ≠ []

/-- Unpacking the Python truthiness guard. -/
lemma completeQ_spec {st : ParseState} (h : completeQ st = true) :
    st.question_text ≠ [] ∧ st.options ≠ [] ∧ st.correct_answer ≠ [] := by
  simp only [completeQ, Bool.and_eq_true, Bool.not_eq_true', List.isEmpty_eq_false] at h
  exact ⟨h.1.1, h.1.2, h.2⟩

/-- A loop iteration either keeps the store or appends the current (then
necessarily complete) question. -/
lemma processLine_emitted {st : ParseState} {raw : List Char} {q : GeneratedQuestion}
    (hq : q ∈ (processLine st raw).emitted) :
    q ∈ st.emitted ∨
      (completeQ st = true ∧ q = ⟨st.question_text, st.options, st.correct_answer⟩) := by
  by_cases h1 : startsNumbered (pyStrip raw) = true
  · by_cases h2 : completeQ st = true
    · simp only [processLine, h1, h2, if_true] at hq
      rcases List.mem_append.mp hq with h | h
      · exact Or.inl h
      · exact Or.inr ⟨h2, List.mem_singleton.mp h⟩
    · simp only [processLine, h1, h2, if_true, if_false] at hq
      exact Or.inl hq
  · by_cases h3 : startsOption (pyStrip raw) = true
    · simp only [processLine, h1, h3, if_true, if_false] at hq
      exact Or.inl hq
    · by_cases h4 : (lit "Correct answer:").isPrefixOf (pyStrip raw) = true
      · simp only [processLine, h1, h3, h4, if_true, if_false] at hq
        exact Or.inl hq
      · simp only [processLine, h1, h3, h4, if_false] at hq
        exact Or.inl hq

/-- Every question stored by a loop iteration is complete, given that the
previously stored ones are. -/
lemma processLine_good {st : ParseState} {raw : List Char}
    (h : ∀ q ∈ st.emitted, goodQ q) : ∀ q ∈ (processLine st raw).emitted, goodQ q := by
  intro q hq
  rcases processLine_emitted hq with h1 | ⟨hc, rfl⟩
  · exact h _ h1
  · exact completeQ_spec hc

/-- Fold form of `processLine_good` over a whole line sequence. -/
lemma foldl_processLine_good (lines : List (List Char)) (st : ParseState)
    (h : ∀ q ∈ st.emitted, goodQ q) :
    ∀ q ∈ (lines.foldl processLine st).emitted, goodQ q := by
  induction lines generalizing st with
  | nil => exact h
  | cons l ls ih => exact ih _ (processLine_good h)

/-- The trailing store also only emits complete questions. -/
lemma finalize_good {st : ParseState} (h : ∀ q ∈ st.emitted, goodQ q) :
    ∀ q ∈ finalize st, goodQ q := by
  intro q hq
  unfold finalize at hq
  by_cases hc : completeQ st = true
  · rw [if_pos hc] at hq
    rcases List.mem_append.mp hq with h1 | h1
    · exact h _ h1
    · rw [List.mem_singleton.mp h1]
      exact completeQ_spec hc
  · rw [if_neg hc] at hq
    exact h _ hq

/-- Every question `parse` returns is complete. -/
lemma parse_good (text : List Char) : ∀ q ∈ parse text, goodQ q := by
  have h0 : ∀ p ∈ initState.emitted, goodQ p := by
    intro p hp
    simp [initState] at hp
  exact finalize_good (foldl_processLine_good _ _ h0)

/-- Peeling one character off a prefix test. -/
lemma isPrefixOf_cons_ex {a : Char} {p line : List Char} (h : ((a :: p).isPrefixOf line) = true) :
    ∃ t, line = a :: t ∧ (p.isPrefixOf t) = true := by
  cases line with
  | nil => simp [List.isPrefixOf] at h
  | cons c t =>
    simp only [List.isPrefixOf, Bool.and_eq_true, beq_iff_eq] at h
    exact ⟨t, by rw [← h.1], h.2⟩

/-- A line matching an option marker starts with a letter, so it never
matches a numbered marker. -/
lemma startsOption_not_numbered {line : List Char} (h : startsOption line = true) :
    startsNumbered line = false := by
  simp only [startsOption, List.any_cons, List.any_nil, Bool.or_false, Bool.or_eq_true] at h
  rcases h with h | h | h | h <;>
    · obtain ⟨t, rfl, -⟩ := isPrefixOf_cons_ex h
      rfl

/-- A line starting with the answer marker starts with the two characters
`Co`, so it matches neither a numbered marker nor an option marker. -/
lemma correct_marker_shape {line : List Char}
    (h : ((lit "Correct answer:").isPrefixOf line) = true) :
    ∃ t, line = 'C' :: 'o' :: t := by
  obtain ⟨t1, rfl, h1⟩ := isPrefixOf_cons_ex h
  obtain ⟨t2, rfl, -⟩ := isPrefixOf_cons_ex h1
  exact ⟨t2, rfl⟩

/-! ## C2: the parser completeness invariant -/

/-- C2 (confirmed). Every question the parser of `generate_quiz` emits has
a non-empty question text, at least one option, and a non-empty correct
label: emission is guarded by the truthiness check
`question_text and options and correct_answer`, both at a numbered marker
and at end of input, so a question in progress that is missing any of the
three is never emitted. -/
theorem parse_emitted_complete (text : List Char) (q : GeneratedQuestion)
    (hq : q ∈ parse text) :
    q.question ≠ [] ∧ q.options ≠ [] ∧ q.answer ≠ [] :=
  parse_good text q hq

/-- Witness for C2: the invariant evaluated on a concrete parse. -/
theorem parse_emitted_complete_witness :
    (GeneratedQuestion.mk (lit "Q") [lit "A) x"] (lit "A")).question ≠ [] ∧
    (GeneratedQuestion.mk (lit "Q") [lit "A) x"] (lit "A")).options ≠ [] ∧
    (GeneratedQuestion.mk (lit "Q") [lit "A) x"] (lit "A")).answer ≠ [] :=
  parse_emitted_complete (lit "1) Q\nA) x\nCorrect answer: A")
    (GeneratedQuestion.mk (lit "Q") [lit "A) x"] (lit "A")) (by decide)

/-! ## C3: state is carried across question boundaries -/

/-- C3 (refuting the claim as stated). Left: the option `A) a1` of the
first question, discarded as incomplete at the marker `2)`, reappears in
the emitted second question. Right: an option line arriving while no
question is in progress contributes an option to the first emitted
question. -/
theorem parse_state_leak_cex :
    parse (lit "1) Q1\nA) a1\n2) Q2\nB) b2\nCorrect answer: B") =
      [⟨lit "Q2", [lit "A) a1", lit "B) b2"], lit "B"⟩] ∧
    parse (lit "A) stray\n1) Q\nCorrect answer: A") =
      [⟨lit "Q", [lit "A) stray"], lit "A"⟩] :=
  ⟨by decide, by decide⟩

/-- C3 (amended). The parser does carry state across question boundaries:
an option-marker line is appended to the accumulating option list whether
or not a question is in progress, and a numbered marker that discards an
incomplete question resets only the question text, so the accumulated
options and correct label persist into the newly started question. -/
theorem processLine_option_and_marker_transitions :
    (∀ st : ParseState, ∀ raw : List Char, startsOption (pyStrip raw) = true →
        processLine st raw = { st with options := st.options ++ [pyStrip raw] }) ∧
    (∀ st : ParseState, ∀ raw : List Char, startsNumbered (pyStrip raw) = true →
        completeQ st = false →
        processLine st raw = { st with question_text := pyStrip ((pyStrip raw).drop 2) }) := by
  constructor
  · intro st raw h
    have hn := startsOption_not_numbered h
    simp [processLine, hn, h]
  · intro st raw h hc
    simp [processLine, h, hc]

/-- Witness for the amended C3 on a concrete state and lines. -/
theorem processLine_option_and_marker_transitions_witness :
    processLine (ParseState.mk [] [lit "A) old"] (lit "B") []) (lit "A) new") =
      ParseState.mk [] [lit "A) old", lit "A) new"] (lit "B") [] ∧
    processLine (ParseState.mk (lit "Q1") [lit "A) old"] [] []) (lit "2) Q2") =
      ParseState.mk (lit "Q2") [lit "A) old"] [] [] := by
  constructor
  · have := processLine_option_and_marker_transitions.1
      (ParseState.mk [] [lit "A) old"] (lit "B") []) (lit "A) new") (by decide)
    simpa using this
  · have := processLine_option_and_marker_transitions.2
      (ParseState.mk (lit "Q1") [lit "A) old"] [] []) (lit "2) Q2") (by decide) (by decide)
    simpa using this

/-! ## C4: the answer marker is case- and spacing-sensitive -/

/-- C4 (refuting the claim as stated). Two inputs differing from the
literal marker only in letter case produce no question at all, while the
exact marker yields one: the lowercase variant is ignored as prose, so the
correct label stays empty and the question is dropped. -/
theorem correct_answer_case_cex :
    parse (lit "1) Q\nA) x\ncorrect answer: A") = [] ∧
    parse (lit "1) Q\nA) x\nCorrect answer: A") = [⟨lit "Q", [lit "A) x"], lit "A"⟩] :=
  ⟨by decide, by decide⟩

/-- C4 (amended). Only a line whose stripped content begins with the exact,
case-sensitive marker `Correct answer:` (no spacing before the colon) sets
the correct label, to the stripped text after the last occurrence of the
marker; spacing after the colon is tolerated because the trailing text is
stripped, but case variants and a space before the colon leave the line
treated as ignorable prose. -/
theorem processLine_correct_answer_marker :
    (∀ st : ParseState, ∀ raw : List Char,
        ((lit "Correct answer:").isPrefixOf (pyStrip raw)) = true →
        processLine st raw =
          { st with correct_answer :=
              pyStrip ((pySplit (lit "Correct answer:") (pyStrip raw)).getLastD []) }) ∧
    (∀ st : ParseState,
        processLine st (lit "Correct answer:   A  ") = { st with correct_answer := lit "A" }) ∧
    (∀ st : ParseState, processLine st (lit "correct answer: A") = st) ∧
    (∀ st : ParseState, processLine st (lit "CORRECT ANSWER: A") = st) ∧
    (∀ st : ParseState, processLine st (lit "Correct answer : A") = st) := by
  refine ⟨?_, fun st => rfl, fun st => rfl, fun st => rfl, fun st => rfl⟩
  intro st raw h
  obtain ⟨t, ht⟩ := correct_marker_shape h
  have hn : startsNumbered (pyStrip raw) = false := by rw [ht]; rfl
  have ho : startsOption (pyStrip raw) = false := by rw [ht]; rfl
  simp [processLine, hn, ho, h]

/-- Witness for the amended C4 on a concrete state and line. -/
theorem processLine_correct_answer_marker_witness :
    processLine (ParseState.mk (lit "Q") [lit "A) x"] [] []) (lit "Correct answer: B") =
      ParseState.mk (lit "Q") [lit "A) x"] (lit "B") [] := by
  have := processLine_correct_answer_marker.1
    (ParseState.mk (lit "Q") [lit "A) x"] [] []) (lit "Correct answer: B") (by decide)
  simpa using this

/-! ## C5: the persistence guard is idempotent per module -/

/-- Every row `generate_quiz` appends belongs to the module it ran for. -/
lemma generate_quiz_rows_module {nextId module_id : Nat}
    {text : List Char} {r : QuizQuestion}
    (hr : r ∈ ((parse text).enum.map
      (fun p => QuizQuestion.mk (nextId + p.1) p.2.question (storedOptions p.2.options)
        p.2.answer module_id))) :
    r.module_id = module_id := by
  obtain ⟨p, -, rfl⟩ := List.mem_map.mp hr
  rfl

/-- C5 (confirmed). The guard of `generate_quiz` is idempotent per module:
when any `QuizQuestion` row already references the module, the route
performs no generation call and persists nothing (first conjunct), and
running the route twice on the same module with an unchanged generation
outcome leaves exactly the rows of the first run (second conjunct). -/
theorem generate_quiz_guard_idempotent :
    (∀ (table : List QuizQuestion) (nextId module_id : Nat) (text : List Char),
        table.filter (fun q => q.module_id == module_id) ≠ [] →
        generate_quiz table nextId module_id text = (table, false)) ∧
    (∀ (table : List QuizQuestion) (n1 n2 module_id : Nat) (text : List Char),
        (generate_quiz (generate_quiz table n1 module_id text).1 n2 module_id text).1 =
          (generate_quiz table n1 module_id text).1) := by
  have guard : ∀ (table : List QuizQuestion) (nextId module_id : Nat) (text : List Char),
      table.filter (fun q => q.module_id == module_id) ≠ [] →
      generate_quiz table nextId module_id text = (table, false) := by
    intro table nextId module_id text h
    have he : (table.filter (fun q => q.module_id == module_id)).isEmpty = false :=
      List.isEmpty_eq_false.mpr h
    simp [generate_quiz, he]
  refine ⟨guard, ?_⟩
  intro table n1 n2 module_id text
  by_cases h : table.filter (fun q => q.module_id == module_id) = []
  · have he : (table.filter (fun q => q.module_id == module_id)).isEmpty = true :=
      List.isEmpty_iff.mpr h
    rcases hp : parse text with - | ⟨q, qs⟩
    · simp [generate_quiz, he, hp]
    · have h1 : generate_quiz table n1 module_id text =
          (table ++ (parse text).enum.map
            (fun p => QuizQuestion.mk (n1 + p.1) p.2.question (storedOptions p.2.options)
              p.2.answer module_id), true) := by
        simp [generate_quiz, he]
      set rows := (parse text).enum.map
        (fun p => QuizQuestion.mk (n1 + p.1) p.2.question (storedOptions p.2.options)
          p.2.answer module_id) with hrows
      have hne : rows ≠ [] := by
        intro hnil
        have : rows.length = 0 := by rw [hnil]; rfl
        rw [hrows, List.length_map, List.enum_length, hp] at this
        simp at this
      have hall : rows.filter (fun q => q.module_id == module_id) = rows :=
        List.filter_eq_self.mpr (fun r hr => by
          have := generate_quiz_rows_module hr
          simp [this])
      have hfil : (table ++ rows).filter (fun q => q.module_id == module_id) ≠ [] := by
        rw [List.filter_append, hall]
        exact List.append_ne_nil_of_right_ne_nil _ hne
      rw [h1]
      have := guard (table ++ rows) n2 module_id text hfil
      rw [this]
  · have := guard table n1 module_id text h
    rw [this]
    rw [guard table n2 module_id text h]

/-- Witness for C5: a module with one stored row makes the route a no-op. -/
theorem generate_quiz_guard_idempotent_witness :
    generate_quiz [QuizQuestion.mk 1 (lit "Q") (lit "A) x") (lit "A") 7] 2 7
        (lit "1) R\nA) y\nCorrect answer: A") =
      ([QuizQuestion.mk 1 (lit "Q") (lit "A) x") (lit "A") 7], false) :=
  generate_quiz_guard_idempotent.1 _ 2 7 _ (by decide)

/-! ## C7: the pipe-joined serialization is not reversible in general -/

/-- C7 (refuting the claim as stated). The parser emits a question whose
only option contains the delimiter character, and splitting its stored
serialization does not recover the option list. -/
theorem stored_options_pipe_cex :
    parse (lit "1) Q\nA) x|y\nCorrect answer: A") =
      [⟨lit "Q", [lit "A) x|y"], lit "A"⟩] ∧
    '|' ∈ lit "A) x|y" ∧
    pySplit (lit "|") (storedOptions [lit "A) x|y"]) ≠ [lit "A) x|y"] :=
  ⟨by decide, by decide, by decide⟩

/-- Splitting on the pipe steps over one pipe-free character. -/
lemma pySplitGo_pipe_cons {c : Char} (hc : c ≠ '|') (rest acc : List Char) :
    pySplitGo (lit "|") (c :: rest) 0 acc = pySplitGo (lit "|") rest 0 (c :: acc) := by
  have hb : ('|' == c) = false := beq_eq_false_iff_ne.mpr (fun he => hc he.symm)
  simp [pySplitGo, List.isPrefixOf, hb]

/-- Splitting on the pipe cuts at a pipe. -/
lemma pySplitGo_pipe_pipe (rest acc : List Char) :
    pySplitGo (lit "|") ('|' :: rest) 0 acc = acc.reverse :: pySplitGo (lit "|") rest 0 [] := by
  conv_lhs => unfold pySplitGo
  simp [List.isPrefixOf, show (lit "|").length - 1 = 0 from rfl]

/-- Splitting a pipe-free trailing field. -/
lemma pySplitGo_pipe_last {o : List Char} (h : '|' ∉ o) (acc : List Char) :
    pySplitGo (lit "|") o 0 acc = [acc.reverse ++ o] := by
  induction o generalizing acc with
  | nil => simp [pySplitGo]
  | cons c t ih =>
    have hc : c ≠ '|' := fun he => h (he ▸ List.mem_cons_self c t)
    rw [pySplitGo_pipe_cons hc]
    rw [ih (fun hm => h (List.mem_cons_of_mem c hm))]
    simp

/-- Splitting a pipe-free field followed by a pipe. -/
lemma pySplitGo_pipe_field {o : List Char} (h : '|' ∉ o) (rest acc : List Char) :
    pySplitGo (lit "|") (o ++ '|' :: rest) 0 acc =
      (acc.reverse ++ o) :: pySplitGo (lit "|") rest 0 [] := by
  induction o generalizing acc with
  | nil => simp [pySplitGo_pipe_pipe]
  | cons c t ih =>
    have hc : c ≠ '|' := fun he => h (he ▸ List.mem_cons_self c t)
    rw [List.cons_append, pySplitGo_pipe_cons hc, ih (fun hm => h (List.mem_cons_of_mem c hm))]
    simp

/-- Joining on the pipe and splitting again is the identity on non-empty
lists of pipe-free fields. -/
lemma pySplit_pyJoin_pipe {opts : List (List Char)} (h : ∀ o ∈ opts, '|' ∉ o)
    (hne : opts ≠ []) :
    pySplit (lit "|") (pyJoin (lit "|") opts) = opts := by
  induction opts with
  | nil => exact absurd rfl hne
  | cons x xs ih =>
    cases xs with
    | nil =>
      have hx : '|' ∉ x := h x (List.mem_cons_self x [])
      show pySplitGo (lit "|") (pyJoin (lit "|") [x]) 0 [] = [x]
      rw [show pyJoin (lit "|") [x] = x from rfl, pySplitGo_pipe_last hx]
      rfl
    | cons y ys =>
      have hx : '|' ∉ x := h x (List.mem_cons_self x (y :: ys))
      have hj : pyJoin (lit "|") (x :: y :: ys) = x ++ '|' :: pyJoin (lit "|") (y :: ys) := by
        show x ++ lit "|" ++ pyJoin (lit "|") (y :: ys) = x ++ '|' :: pyJoin (lit "|") (y :: ys)
        rw [List.append_assoc]
        rfl
      show pySplitGo (lit "|") (pyJoin (lit "|") (x :: y :: ys)) 0 [] = x :: y :: ys
      rw [hj, pySplitGo_pipe_field hx]
      have := ih (fun o ho => h o (List.mem_cons_of_mem x ho)) (by simp)
      rw [show pySplit (lit "|") (pyJoin (lit "|") (y :: ys)) =
        pySplitGo (lit "|") (pyJoin (lit "|") (y :: ys)) 0 [] from rfl] at this
      rw [this]
      rfl

/-- C7 (amended). The delimiter is not proven absent from option text (the
counterexample above shows an emitted option containing it); the stored
serialization is reversible exactly under the added hypothesis that no
option of the emitted question contains the pipe, in which case splitting
recovers the original ordered option sequence. -/
theorem stored_options_roundtrip (text : List Char) (q : GeneratedQuestion)
    (hq : q ∈ parse text) (hpipe : ∀ o ∈ q.options, '|' ∉ o) :
    pySplit (lit "|") (storedOptions q.options) = q.options :=
  pySplit_pyJoin_pipe hpipe (parse_good text q hq).2.1

/-- Witness for the amended C7 on a concrete pipe-free parse. -/
theorem stored_options_roundtrip_witness :
    pySplit (lit "|") (storedOptions [lit "A) x", lit "B) y"]) = [lit "A) x", lit "B) y"] :=
  stored_options_roundtrip (lit "1) Q\nA) x\nB) y\nCorrect answer: B")
    ⟨lit "Q", [lit "A) x", lit "B) y"], lit "B"⟩ (by decide) (by decide)

/-! ## C9: the analytics aggregation -/

/-- C9 (confirmed). The per-module statistics of `analytics` form a pure
reduction of one module's attempt scores: for scores 80, 100 and 60 the
count is 3, the mean 80, the minimum 60 and the maximum 100; with no
attempts for the module every statistic is `None` and the count 0. The
model is a function of the attempt table and writes nothing. -/
theorem moduleAnalytics_spec :
    moduleAnalytics [⟨1, 7, 80⟩, ⟨2, 7, 100⟩, ⟨3, 7, 60⟩] 7 =
      ⟨some 80, some 100, some 60, 3⟩ ∧
    (∀ (attempts : List QuizAttempt) (m : Nat),
        attempts.filter (fun a => a.module_id == m) = [] →
        moduleAnalytics attempts m = ⟨none, none, none, 0⟩) := by
  constructor
  · simp only [moduleAnalytics, List.filter, List.map]
    norm_num [pyRound2, pyRoundInt, max_def, min_def]
  · intro attempts m h
    simp [moduleAnalytics, h]

/-- Witness for C9: the empty case evaluated on a concrete table. -/
theorem moduleAnalytics_spec_witness :
    moduleAnalytics [⟨1, 5, 50⟩] 9 = ⟨none, none, none, 0⟩ :=
  moduleAnalytics_spec.2 [⟨1, 5, 50⟩] 9 (by decide)

/-! ## C10: the quiz submission score -/

/-- C10 (confirmed). On a module with at least one stored question the
persisted attempt's score is `(correct / total) * 100`, hence within
`[0, 100]`; on a module with no stored questions the computation divides by
zero (`ZeroDivisionError`, modelled as `none`), which is why the
precondition is required. -/
theorem student_quiz_score_bounds :
    (∀ (questions : List QuizQuestion) (attempts : List QuizAttempt)
        (module_id user_id : Nat) (form : Nat → Option (List Char)),
        questions.filter (fun q => q.module_id == module_id) ≠ [] →
        student_quiz questions attempts module_id user_id form =
          some (attempts ++ [⟨user_id, module_id,
            (((questions.filter (fun q => q.module_id == module_id)).countP
                (fun q => form q.id == some q.answer) : ℚ) /
              ((questions.filter (fun q => q.module_id == module_id)).length : ℚ)) * 100⟩]) ∧
        0 ≤ (((questions.filter (fun q => q.module_id == module_id)).countP
                (fun q => form q.id == some q.answer) : ℚ) /
              ((questions.filter (fun q => q.module_id == module_id)).length : ℚ)) * 100 ∧
        (((questions.filter (fun q => q.module_id == module_id)).countP
                (fun q => form q.id == some q.answer) : ℚ) /
              ((questions.filter (fun q => q.module_id == module_id)).length : ℚ)) * 100 ≤ 100) ∧
    (∀ (questions : List QuizQuestion) (attempts : List QuizAttempt)
        (module_id user_id : Nat) (form : Nat → Option (List Char)),
        questions.filter (fun q => q.module_id == module_id) = [] →
        student_quiz questions attempts module_id user_id form = none) := by
  constructor
  · intro questions attempts module_id user_id form h
    set qq := questions.filter (fun q => q.module_id == module_id) with hqq
    have hlen : qq.length ≠ 0 := fun h0 => h (List.length_eq_zero.mp h0)
    have hpos : (0 : ℚ) < (qq.length : ℚ) := by
      exact_mod_cast Nat.pos_of_ne_zero hlen
    have hcle : ((qq.countP (fun q => form q.id == some q.answer) : ℚ)) ≤ (qq.length : ℚ) := by
      exact_mod_cast List.countP_le_length _
    have hc0 : (0 : ℚ) ≤ (qq.countP (fun q => form q.id == some q.answer) : ℚ) := by
      positivity
    refine ⟨?_, ?_, ?_⟩
    · simp only [student_quiz, ← hqq, hlen, if_false]
    · positivity
    · have hdiv : (qq.countP (fun q => form q.id == some q.answer) : ℚ) /
          (qq.length : ℚ) ≤ 1 := (div_le_one hpos).mpr hcle
      calc (qq.countP (fun q => form q.id == some q.answer) : ℚ) /
            (qq.length : ℚ) * 100 ≤ 1 * 100 := by
              exact mul_le_mul_of_nonneg_right hdiv (by norm_num)
        _ = 100 := by norm_num
  · intro questions attempts module_id user_id form h
    simp [student_quiz, h]

/-- Witness for C10: one stored question answered correctly persists an
attempt with score 100. -/
theorem student_quiz_score_bounds_witness :
    student_quiz [QuizQuestion.mk 1 (lit "Q") (lit "A) x") (lit "A") 5] [] 5 3
        (fun i => if i == 1 then some (lit "A") else none) =
      some [QuizAttempt.mk 3 5 100] ∧
    student_quiz [] [] 5 3 (fun _ => none) = none := by
  constructor
  · have h := student_quiz_score_bounds.1 [QuizQuestion.mk 1 (lit "Q") (lit "A) x") (lit "A") 5]
      [] 5 3 (fun i => if i == 1 then some (lit "A") else none) (by decide)
    rw [h.1]
    norm_num
  · exact student_quiz_score_bounds.2 [] [] 5 3 (fun _ => none) (by decide)

/-! ## Import lemmas -/

/-- The dedup lookup is stable under appending modules. -/
lemma moduleExists_append {mods : List Module} (d : List Module) {name : Option String}
    {cid : Nat} (h : moduleExists mods name cid = true) :
    moduleExists (mods ++ d) name cid = true := by
  cases name with
  | none => simp [moduleExists] at h
  | some n =>
    simp only [moduleExists, List.any_append, Bool.or_eq_true] at *
    exact Or.inl h

/-- A successful find is stable under appending courses. -/
lemma find?_append_some {l d : List Course} {p : Course → Bool} {c : Course}
    (h : l.find? p = some c) : (l ++ d).find? p = some c := by
  rw [List.find?_append, h]
  rfl

/-- One item step appends to the module table. -/
lemma importItem_append (cid : Nat) (s : String) (acc : List Module × Nat)
    (item : ContentItem) : ∃ d, (importItem cid s acc item).1 = acc.1 ++ d := by
  by_cases h : moduleExists acc.1 item.name cid = true
  · exact ⟨[], by simp [importItem, h]⟩
  · exact ⟨[⟨item.name.getD "Untitled Module", pyOrElse item.description s, cid⟩],
      by simp [importItem, h]⟩

/-- The item fold appends to the module table. -/
lemma foldl_importItem_append (cid : Nat) (s : String) (items : List ContentItem)
    (acc : List Module × Nat) :
    ∃ d, (items.foldl (importItem cid s) acc).1 = acc.1 ++ d := by
  induction items generalizing acc with
  | nil => exact ⟨[], by simp⟩
  | cons i is ih =>
    obtain ⟨d1, h1⟩ := importItem_append cid s acc i
    obtain ⟨d2, h2⟩ := ih (importItem cid s acc i)
    exact ⟨d1 ++ d2, by rw [List.foldl_cons, h2, h1, List.append_assoc]⟩

/-- The section fold appends to the module table. -/
lemma foldl_importSection_append (cid : Nat) (sections : List Sect)
    (acc : List Module × Nat) :
    ∃ d, (sections.foldl (importSection cid) acc).1 = acc.1 ++ d := by
  induction sections generalizing acc with
  | nil => exact ⟨[], by simp⟩
  | cons s ss ih =>
    obtain ⟨d1, h1⟩ := foldl_importItem_append cid (s.summary.getD "") s.modules acc
    obtain ⟨d2, h2⟩ := ih (importSection cid acc s)
    exact ⟨d1 ++ d2, by
      rw [List.foldl_cons, h2, show (importSection cid acc s).1 = acc.1 ++ d1 from h1,
        List.append_assoc]⟩

/-- `import_modules_for_course` appends to the module table. -/
lemma import_modules_append (sections : List Sect) (cid : Nat) (mods : List Module) :
    ∃ d, (import_modules_for_course sections cid mods).1 = mods ++ d :=
  foldl_importSection_append cid sections (mods, 0)

/-- Unfolding `processCourse` when the course is found and the contents
fetch fails. -/
lemma processCourse_found_err {fcc : Nat → Except String (List Sect)} {acc : ImportAcc}
    {mc : RemoteCourse} {c : Course} {err : String}
    (hf : acc.db.courses.find? (fun x => x.title == mc.fullname.getD "Untitled") = some c)
    (hc : fcc mc.id = Except.error err) :
    processCourse fcc acc mc = { acc with warnings := acc.warnings + 1 } := by
  simp only [processCourse]
  rw [hf, hc]

/-- Unfolding `processCourse` when the course is found and the contents
fetch succeeds. -/
lemma processCourse_found_ok {fcc : Nat → Except String (List Sect)} {acc : ImportAcc}
    {mc : RemoteCourse} {c : Course} {sections : List Sect}
    (hf : acc.db.courses.find? (fun x => x.title == mc.fullname.getD "Untitled") = some c)
    (hc : fcc mc.id = Except.ok sections) :
    processCourse fcc acc mc =
      { acc with
        db := { acc.db with
          modules := (import_modules_for_course sections c.id acc.db.modules).1 }
        imported_modules :=
          acc.imported_modules + (import_modules_for_course sections c.id acc.db.modules).2 } := by
  simp only [processCourse]
  rw [hf, hc]

/-- Unfolding `processCourse` when the course is created and the contents
fetch fails. -/
lemma processCourse_new_err {fcc : Nat → Except String (List Sect)} {acc : ImportAcc}
    {mc : RemoteCourse} {err : String}
    (hf : acc.db.courses.find? (fun x => x.title == mc.fullname.getD "Untitled") = none)
    (hc : fcc mc.id = Except.error err) :
    processCourse fcc acc mc =
      { acc with
        db := { acc.db with
          courses := acc.db.courses ++
            [⟨acc.db.nextCourseId, mc.fullname.getD "Untitled",
              mc.summary.getD "No description provided"⟩]
          nextCourseId := acc.db.nextCourseId + 1 }
        imported_courses := acc.imported_courses + 1
        warnings := acc.warnings + 1 } := by
  simp only [processCourse]
  rw [hf, hc]

/-- Unfolding `processCourse` when the course is created and the contents
fetch succeeds. -/
lemma processCourse_new_ok {fcc : Nat → Except String (List Sect)} {acc : ImportAcc}
    {mc : RemoteCourse} {sections : List Sect}
    (hf : acc.db.courses.find? (fun x => x.title == mc.fullname.getD "Untitled") = none)
    (hc : fcc mc.id = Except.ok sections) :
    processCourse fcc acc mc =
      { db :=
          { courses := acc.db.courses ++
              [⟨acc.db.nextCourseId, mc.fullname.getD "Untitled",
                mc.summary.getD "No description provided"⟩]
            modules := (import_modules_for_course sections acc.db.nextCourseId
              acc.db.modules).1
            nextCourseId := acc.db.nextCourseId + 1 }
        imported_courses := acc.imported_courses + 1
        imported_modules :=
          acc.imported_modules + (import_modules_for_course sections acc.db.nextCourseId
            acc.db.modules).2
        warnings := acc.warnings } := by
  simp only [processCourse]
  rw [hf, hc]

/-- One course step appends to both the course and the module table. -/
lemma processCourse_db_append (fcc : Nat → Except String (List Sect)) (acc : ImportAcc)
    (mc : RemoteCourse) :
    ∃ d e, (processCourse fcc acc mc).db.courses = acc.db.courses ++ d ∧
      (processCourse fcc acc mc).db.modules = acc.db.modules ++ e := by
  cases hf : acc.db.courses.find? (fun x => x.title == mc.fullname.getD "Untitled") with
  | some c =>
    cases hc : fcc mc.id with
    | error err =>
      rw [processCourse_found_err hf hc]
      exact ⟨[], [], by simp, by simp⟩
    | ok sections =>
      obtain ⟨e, he⟩ := import_modules_append sections c.id acc.db.modules
      rw [processCourse_found_ok hf hc]
      exact ⟨[], e, by simp, by simpa using he⟩
  | none =>
    cases hc : fcc mc.id with
    | error err =>
      rw [processCourse_new_err hf hc]
      exact ⟨_, [], rfl, by simp⟩
    | ok sections =>
      obtain ⟨e, he⟩ := import_modules_append sections acc.db.nextCourseId acc.db.modules
      rw [processCourse_new_ok hf hc]
      exact ⟨_, e, rfl, by simpa using he⟩

/-- The course fold appends to both the course and the module table. -/
lemma foldl_processCourse_db_append (fcc : Nat → Except String (List Sect))
    (l : List RemoteCourse) (acc : ImportAcc) :
    ∃ d e, (l.foldl (processCourse fcc) acc).db.courses = acc.db.courses ++ d ∧
      (l.foldl (processCourse fcc) acc).db.modules = acc.db.modules ++ e := by
  induction l generalizing acc with
  | nil => exact ⟨[], [], by simp, by simp⟩
  | cons mc rest ih =>
    obtain ⟨d1, e1, h1, h1m⟩ := processCourse_db_append fcc acc mc
    obtain ⟨d2, e2, h2, h2m⟩ := ih (processCourse fcc acc mc)
    exact ⟨d1 ++ d2, e1 ++ e2,
      by rw [List.foldl_cons, h2, h1, List.append_assoc],
      by rw [List.foldl_cons, h2m, h1m, List.append_assoc]⟩

/-- An item processed by one item step has its dedup key present afterwards
(it is either skipped because present, or created). -/
lemma importItem_covers (cid : Nat) (s : String) (acc : List Module × Nat)
    (item : ContentItem) (hname : item.name.isSome = true) :
    moduleExists (importItem cid s acc item).1 item.name cid = true := by
  obtain ⟨n, hn⟩ := Option.isSome_iff_exists.mp hname
  by_cases h : moduleExists acc.1 item.name cid = true
  · simp [importItem, h]
  · have hres : (importItem cid s acc item).1 =
        acc.1 ++ [⟨item.name.getD "Untitled Module", pyOrElse item.description s, cid⟩] := by
      simp [importItem, h]
    rw [hres, hn]
    simp [moduleExists, List.any_append, hn]

/-- The dedup key survives the rest of the item fold. -/
lemma foldl_importItem_exists_mono (cid : Nat) (s : String) (items : List ContentItem)
    (acc : List Module × Nat) {name : Option String} {cid' : Nat}
    (h : moduleExists acc.1 name cid' = true) :
    moduleExists (items.foldl (importItem cid s) acc).1 name cid' = true := by
  obtain ⟨d, hd⟩ := foldl_importItem_append cid s items acc
  rw [hd]
  exact moduleExists_append d h

/-- After the item fold every named item of the list has its dedup key
present. -/
lemma foldl_importItem_covers (cid : Nat) (s : String) (items : List ContentItem)
    (acc : List Module × Nat) (hnames : ∀ item ∈ items, item.name.isSome = true) :
    ∀ item ∈ items, moduleExists (items.foldl (importItem cid s) acc).1 item.name cid = true := by
  induction items generalizing acc with
  | nil =>
    intro item h
    cases h
  | cons i is ih =>
    intro item hmem
    rw [List.foldl_cons]
    rcases List.mem_cons.mp hmem with rfl | hmem2
    · exact foldl_importItem_exists_mono cid s is _
        (importItem_covers cid s acc item (hnames item hmem))
    · exact ih _ (fun it hi => hnames it (List.mem_cons_of_mem _ hi)) item hmem2

/-- After the section fold every named item of every section has its dedup
key present. -/
lemma foldl_importSection_covers (cid : Nat) (ss : List Sect) (acc : List Module × Nat)
    (hnames : ∀ sect ∈ ss, ∀ item ∈ sect.modules, item.name.isSome = true) :
    ∀ sect ∈ ss, ∀ item ∈ sect.modules,
      moduleExists (ss.foldl (importSection cid) acc).1 item.name cid = true := by
  induction ss generalizing acc with
  | nil =>
    intro sect h
    cases h
  | cons s rest ih =>
    intro sect hmem item hitem
    rw [List.foldl_cons]
    rcases List.mem_cons.mp hmem with rfl | hmem2
    · have h1 : moduleExists (importSection cid acc sect).1 item.name cid = true := by
        unfold importSection
        exact foldl_importItem_covers cid (sect.summary.getD "") sect.modules acc
          (hnames sect (List.mem_cons_self _ _)) item hitem
      obtain ⟨d, hd⟩ := foldl_importSection_append cid rest (importSection cid acc sect)
      rw [hd]
      exact moduleExists_append d h1
    · exact ih _ (fun se hs it hi => hnames se (List.mem_cons_of_mem _ hs) it hi) sect hmem2
        item hitem

/-- Module-table form of the section fold coverage. -/
lemma import_modules_covers (sections : List Sect) (cid : Nat) (mods : List Module)
    (hnames : ∀ sect ∈ sections, ∀ item ∈ sect.modules, item.name.isSome = true) :
    ∀ sect ∈ sections, ∀ item ∈ sect.modules,
      moduleExists (import_modules_for_course sections cid mods).1 item.name cid = true :=
  foldl_importSection_covers cid sections (mods, 0) hnames

/-- An item whose dedup key is present is skipped. -/
lemma importItem_noop {cid : Nat} {s : String} {acc : List Module × Nat} {item : ContentItem}
    (h : moduleExists acc.1 item.name cid = true) :
    importItem cid s acc item = acc := by
  simp [importItem, h]

/-- An item fold over items whose dedup keys are all present does nothing. -/
lemma foldl_importItem_noop {cid : Nat} {s : String} {items : List ContentItem}
    {acc : List Module × Nat}
    (h : ∀ item ∈ items, moduleExists acc.1 item.name cid = true) :
    items.foldl (importItem cid s) acc = acc := by
  induction items with
  | nil => rfl
  | cons i is ih =>
    rw [List.foldl_cons, importItem_noop (h i (List.mem_cons_self _ _))]
    exact ih (fun it hi => h it (List.mem_cons_of_mem _ hi))

/-- A section fold over sections whose items all have their dedup keys
present does nothing. -/
lemma foldl_importSection_noop {cid : Nat} {ss : List Sect} {acc : List Module × Nat}
    (h : ∀ sect ∈ ss, ∀ item ∈ sect.modules, moduleExists acc.1 item.name cid = true) :
    ss.foldl (importSection cid) acc = acc := by
  induction ss with
  | nil => rfl
  | cons s rest ih =>
    have h1 : importSection cid acc s = acc := by
      unfold importSection
      exact foldl_importItem_noop (h s (List.mem_cons_self _ _))
    rw [List.foldl_cons, h1]
    exact ih (fun se hs it hi => h se (List.mem_cons_of_mem _ hs) it hi)

/-- `import_modules_for_course` over a saturated module table creates
nothing and counts zero. -/
lemma import_modules_noop {sections : List Sect} {cid : Nat} {mods : List Module}
    (h : ∀ sect ∈ sections, ∀ item ∈ sect.modules, moduleExists mods item.name cid = true) :
    import_modules_for_course sections cid mods = (mods, 0) := by
  unfold import_modules_for_course
  exact foldl_importSection_noop h

/-- A covered course whose contents fetch succeeds is a complete no-op for
the course step. -/
lemma processCourse_covered_noop {fcc : Nat → Except String (List Sect)} {acc : ImportAcc}
    {mc : RemoteCourse} (hok : ∃ s, fcc mc.id = Except.ok s)
    (hcov : courseCovered fcc acc.db mc) :
    processCourse fcc acc mc = acc := by
  obtain ⟨c, hfind, hmods⟩ := hcov
  obtain ⟨s, hs⟩ := hok
  rw [processCourse_found_ok hfind hs, import_modules_noop (hmods s hs)]
  cases acc with
  | mk db ic im w =>
    cases db
    simp

/-- A course fold over covered courses with successful fetches is the
identity. -/
lemma foldl_processCourse_covered_noop {fcc : Nat → Except String (List Sect)}
    {l : List RemoteCourse} {acc : ImportAcc}
    (hok : ∀ mc ∈ l, ∃ s, fcc mc.id = Except.ok s)
    (hcov : ∀ mc ∈ l, courseCovered fcc acc.db mc) :
    l.foldl (processCourse fcc) acc = acc := by
  induction l with
  | nil => rfl
  | cons mc rest ih =>
    rw [List.foldl_cons,
      processCourse_covered_noop (hok mc (List.mem_cons_self _ _))
        (hcov mc (List.mem_cons_self _ _))]
    exact ih (fun m hm => hok m (List.mem_cons_of_mem _ hm))
      (fun m hm => hcov m (List.mem_cons_of_mem _ hm))

/-- Coverage is stable under appending to both tables. -/
lemma courseCovered_mono {fcc : Nat → Except String (List Sect)} {db db' : Db}
    {mc : RemoteCourse} (hc : ∃ d, db'.courses = db.courses ++ d)
    (hm : ∃ e, db'.modules = db.modules ++ e)
    (h : courseCovered fcc db mc) : courseCovered fcc db' mc := by
  obtain ⟨c, hfind, hmods⟩ := h
  obtain ⟨d, hd⟩ := hc
  obtain ⟨e, he⟩ := hm
  refine ⟨c, by rw [hd]; exact find?_append_some hfind, ?_⟩
  intro s hs sect hsect item hitem
  rw [he]
  exact moduleExists_append e (hmods s hs sect hsect item hitem)

/-- A course step preserves the coverage of any course. -/
lemma processCourse_preserves_covered {fcc : Nat → Except String (List Sect)}
    {acc : ImportAcc} {mc mc' : RemoteCourse}
    (h : courseCovered fcc acc.db mc') :
    courseCovered fcc (processCourse fcc acc mc).db mc' := by
  obtain ⟨d, e, hd, he⟩ := processCourse_db_append fcc acc mc
  exact courseCovered_mono ⟨d, hd⟩ ⟨e, he⟩ h

/-- A course fold preserves the coverage of any course. -/
lemma foldl_processCourse_preserves_covered {fcc : Nat → Except String (List Sect)}
    {l : List RemoteCourse} {acc : ImportAcc} {mc' : RemoteCourse}
    (h : courseCovered fcc acc.db mc') :
    courseCovered fcc (l.foldl (processCourse fcc) acc).db mc' := by
  obtain ⟨d, e, hd, he⟩ := foldl_processCourse_db_append fcc l acc
  exact courseCovered_mono ⟨d, hd⟩ ⟨e, he⟩ h

/-- Processing a course whose listed items are all named leaves the course
covered. -/
lemma processCourse_covers {fcc : Nat → Except String (List Sect)} {acc : ImportAcc}
    {mc : RemoteCourse}
    (hnames : ∀ s, fcc mc.id = Except.ok s → ∀ sect ∈ s, ∀ item ∈ sect.modules,
      item.name.isSome = true) :
    courseCovered fcc (processCourse fcc acc mc).db mc := by
  cases hf : acc.db.courses.find? (fun x => x.title == mc.fullname.getD "Untitled") with
  | some c =>
    cases hc : fcc mc.id with
    | error err =>
      rw [processCourse_found_err hf hc]
      refine ⟨c, hf, ?_⟩
      intro s hs
      rw [hc] at hs
      cases hs
    | ok sections =>
      rw [processCourse_found_ok hf hc]
      refine ⟨c, hf, ?_⟩
      intro s hs sect hsect item hitem
      rw [hc] at hs
      injection hs with hss
      subst hss
      exact import_modules_covers sections c.id acc.db.modules (hnames sections hc) sect hsect
        item hitem
  | none =>
    cases hc : fcc mc.id with
    | error err =>
      rw [processCourse_new_err hf hc]
      refine ⟨⟨acc.db.nextCourseId, mc.fullname.getD "Untitled",
        mc.summary.getD "No description provided"⟩, ?_, ?_⟩
      · rw [List.find?_append, hf]
        simp [List.find?]
      · intro s hs
        rw [hc] at hs
        cases hs
    | ok sections =>
      rw [processCourse_new_ok hf hc]
      refine ⟨⟨acc.db.nextCourseId, mc.fullname.getD "Untitled",
        mc.summary.getD "No description provided"⟩, ?_, ?_⟩
      · rw [List.find?_append, hf]
        simp [List.find?]
      · intro s hs sect hsect item hitem
        rw [hc] at hs
        injection hs with hss
        subst hss
        exact import_modules_covers sections acc.db.nextCourseId acc.db.modules
          (hnames sections hc) sect hsect item hitem

/-- After the course fold every course of the list with all-named items is
covered. -/
lemma foldl_processCourse_covers {fcc : Nat → Except String (List Sect)}
    (l : List RemoteCourse) (acc : ImportAcc)
    (hnames : ∀ mc ∈ l, ∀ s, fcc mc.id = Except.ok s → ∀ sect ∈ s, ∀ item ∈ sect.modules,
      item.name.isSome = true) :
    ∀ mc ∈ l, courseCovered fcc (l.foldl (processCourse fcc) acc).db mc := by
  induction l generalizing acc with
  | nil =>
    intro mc h
    cases h
  | cons m rest ih =>
    intro mc hmem
    rw [List.foldl_cons]
    rcases List.mem_cons.mp hmem with rfl | hmem2
    · exact foldl_processCourse_preserves_covered
        (processCourse_covers (hnames mc (List.mem_cons_self _ _)))
    · exact ih _ (fun m2 h2 => hnames m2 (List.mem_cons_of_mem _ h2)) mc hmem2

/-- An import run against a fully covered store with successful fetches
returns the store untouched and counts nothing. -/
lemma moodle_import_noop_of_covered {fcc : Nat → Except String (List Sect)}
    {l : List RemoteCourse} {db : Db}
    (hok : ∀ mc ∈ l, ∃ s, fcc mc.id = Except.ok s)
    (hcov : ∀ mc ∈ l, courseCovered fcc db mc) :
    moodle_import (Except.ok l) fcc db = ⟨db, 0, 0, none, 0⟩ := by
  have hrun : l.foldl (processCourse fcc) ⟨db, 0, 0, 0⟩ = ⟨db, 0, 0, 0⟩ :=
    foldl_processCourse_covered_noop hok hcov
  rw [show moodle_import (Except.ok l) fcc db =
      MoodleImportResult.mk (l.foldl (processCourse fcc) ⟨db, 0, 0, 0⟩).db
        (l.foldl (processCourse fcc) ⟨db, 0, 0, 0⟩).imported_courses
        (l.foldl (processCourse fcc) ⟨db, 0, 0, 0⟩).imported_modules none
        (l.foldl (processCourse fcc) ⟨db, 0, 0, 0⟩).warnings from rfl, hrun]

/-! ## C1: idempotence of the catalog import -/

/-- C1 (refuting the claim as stated). A remote catalog with one course
whose single content item carries no name defeats the module dedup: the
lookup key `module.get("name")` is SQL NULL while the created module is
titled with the fallback `"Untitled Module"`, so the second run of
the import against the unchanged catalog creates the module again — it
reports 0 new courses but 1 new module, not 0. -/
theorem moodle_import_idempotence_cex :
    (moodle_import (Except.ok [RemoteCourse.mk 1 (some "C") none])
        (fun _ => Except.ok [Sect.mk none [ContentItem.mk none (some "d")]])
        (moodle_import (Except.ok [RemoteCourse.mk 1 (some "C") none])
          (fun _ => Except.ok [Sect.mk none [ContentItem.mk none (some "d")]])
          (Db.mk [] [] 1)).db).imported_courses = 0 ∧
    (moodle_import (Except.ok [RemoteCourse.mk 1 (some "C") none])
        (fun _ => Except.ok [Sect.mk none [ContentItem.mk none (some "d")]])
        (moodle_import (Except.ok [RemoteCourse.mk 1 (some "C") none])
          (fun _ => Except.ok [Sect.mk none [ContentItem.mk none (some "d")]])
          (Db.mk [] [] 1)).db).imported_modules = 1 :=
  ⟨by decide, by decide⟩

/-- C1 (amended). Whenever every content item of every successfully fetched
listing carries a name, the import is idempotent: a second run against the
unchanged remote catalog finds every course by exact title and every module
by the (item name, local course id) dedup key created by the first run, so
it reports 0 created courses, 0 created modules, no error, no warnings, and
leaves the store exactly as the first run left it. -/
theorem moodle_import_idempotent (l : List RemoteCourse)
    (fcc : Nat → Except String (List Sect)) (db : Db)
    (hok : ∀ mc ∈ l, ∃ s, fcc mc.id = Except.ok s)
    (hnames : ∀ mc ∈ l, ∀ s, fcc mc.id = Except.ok s →
      ∀ sect ∈ s, ∀ item ∈ sect.modules, item.name.isSome = true) :
    moodle_import (Except.ok l) fcc (moodle_import (Except.ok l) fcc db).db =
      ⟨(moodle_import (Except.ok l) fcc db).db, 0, 0, none, 0⟩ := by
  have hcov : ∀ mc ∈ l, courseCovered fcc (moodle_import (Except.ok l) fcc db).db mc := by
    have h1 : (moodle_import (Except.ok l) fcc db).db =
        (l.foldl (processCourse fcc) ⟨db, 0, 0, 0⟩).db := rfl
    rw [h1]
    exact foldl_processCourse_covers l _ (fun mc hm => hnames mc hm)
  exact moodle_import_noop_of_covered hok hcov

/-- Witness for the amended C1: a one-course, one-named-item catalog
is imported idempotently. -/
theorem moodle_import_idempotent_witness :
    moodle_import (Except.ok [RemoteCourse.mk 1 (some "C") (some "desc")])
        (fun _ => Except.ok [Sect.mk (some "sum") [ContentItem.mk (some "M") (some "d")]])
        (moodle_import (Except.ok [RemoteCourse.mk 1 (some "C") (some "desc")])
          (fun _ => Except.ok [Sect.mk (some "sum") [ContentItem.mk (some "M") (some "d")]])
          (Db.mk [] [] 1)).db =
      ⟨(moodle_import (Except.ok [RemoteCourse.mk 1 (some "C") (some "desc")])
          (fun _ => Except.ok [Sect.mk (some "sum") [ContentItem.mk (some "M") (some "d")]])
          (Db.mk [] [] 1)).db, 0, 0, none, 0⟩ :=
  moodle_import_idempotent [RemoteCourse.mk 1 (some "C") (some "desc")]
    (fun _ => Except.ok [Sect.mk (some "sum") [ContentItem.mk (some "M") (some "d")]])
    (Db.mk [] [] 1)
    (fun _ _ => ⟨[Sect.mk (some "sum") [ContentItem.mk (some "M") (some "d")]], rfl⟩)
    (by
      intro mc hmc s hs sect hsect item hitem
      cases hs
      simp only [List.mem_singleton] at hsect
      subst hsect
      simp only [List.mem_singleton] at hitem
      subst hitem
      rfl)

/-! ## C6: two-tier error handling of the import -/

/-- C6 (confirmed). First conjunct: a failed top-level course fetch aborts
the import with an error flash and imports nothing (the store is returned
untouched, both counts 0). Second conjunct: a failed per-course contents
fetch is caught — the failing course adds no module and no module count and
records exactly one warning, while the run decomposes into the courses
before it, the caught failure, and the courses after it, which are all
still processed. -/
theorem moodle_import_two_tier_errors :
    (∀ (e : String) (fcc : Nat → Except String (List Sect)) (db : Db),
        moodle_import (Except.error e) fcc db = ⟨db, 0, 0, some e, 0⟩) ∧
    (∀ (fcc : Nat → Except String (List Sect)) (db : Db)
        (pre post : List RemoteCourse) (bad : RemoteCourse) (e : String) (acc : ImportAcc),
        fcc bad.id = Except.error e →
        ((processCourse fcc acc bad).db.modules = acc.db.modules ∧
          (processCourse fcc acc bad).imported_modules = acc.imported_modules ∧
          (processCourse fcc acc bad).warnings = acc.warnings + 1) ∧
        moodle_import (Except.ok (pre ++ bad :: post)) fcc db =
          (let a := post.foldl (processCourse fcc)
            (processCourse fcc (pre.foldl (processCourse fcc) ⟨db, 0, 0, 0⟩) bad);
          ⟨a.db, a.imported_courses, a.imported_modules, none, a.warnings⟩)) := by
  constructor
  · intro e fcc db
    rfl
  · intro fcc db pre post bad e acc hbad
    constructor
    · cases hf : acc.db.courses.find? (fun x => x.title == bad.fullname.getD "Untitled") with
      | some c =>
        rw [processCourse_found_err hf hbad]
        exact ⟨rfl, rfl, rfl⟩
      | none =>
        rw [processCourse_new_err hf hbad]
        exact ⟨rfl, rfl, rfl⟩
    · show (match Except.ok (pre ++ bad :: post) with
        | Except.error e => MoodleImportResult.mk db 0 0 (some e) 0
        | Except.ok moodle_courses =>
          (let a := moodle_courses.foldl (processCourse fcc) ⟨db, 0, 0, 0⟩
          ⟨a.db, a.imported_courses, a.imported_modules, none, a.warnings⟩)) = _
      simp only [List.foldl_append, List.foldl_cons]

/-- Witness for C6: a three-course catalog whose middle contents fetch
fails still imports the modules of the first and third course. -/
theorem moodle_import_two_tier_errors_witness :
    moodle_import
        (Except.ok [RemoteCourse.mk 1 (some "C1") none, RemoteCourse.mk 2 (some "C2") none,
          RemoteCourse.mk 3 (some "C3") none])
        (fun i => if i == 2 then Except.error "down"
          else Except.ok [Sect.mk none [ContentItem.mk (some "M") (some "d")]])
        (Db.mk [] [] 10) =
      (let a := [RemoteCourse.mk 3 (some "C3") none].foldl
          (processCourse (fun i => if i == 2 then Except.error "down"
            else Except.ok [Sect.mk none [ContentItem.mk (some "M") (some "d")]]))
          (processCourse (fun i => if i == 2 then Except.error "down"
            else Except.ok [Sect.mk none [ContentItem.mk (some "M") (some "d")]])
            ([RemoteCourse.mk 1 (some "C1") none].foldl
              (processCourse (fun i => if i == 2 then Except.error "down"
                else Except.ok [Sect.mk none [ContentItem.mk (some "M") (some "d")]]))
              ⟨Db.mk [] [] 10, 0, 0, 0⟩)
            (RemoteCourse.mk 2 (some "C2") none));
        ⟨a.db, a.imported_courses, a.imported_modules, none, a.warnings⟩) :=
  ((moodle_import_two_tier_errors.2
    (fun i => if i == 2 then Except.error "down"
      else Except.ok [Sect.mk none [ContentItem.mk (some "M") (some "d")]])
    (Db.mk [] [] 10)
    [RemoteCourse.mk 1 (some "C1") none] [RemoteCourse.mk 3 (some "C3") none]
    (RemoteCourse.mk 2 (some "C2") none) "down" ⟨Db.mk [] [] 10, 0, 0, 0⟩ rfl).2)

/-! ## C8: existing courses are reused and never modified -/

/-- C8 (confirmed). First conjunct: an import run only ever appends to the
course table, so every pre-existing local course keeps exactly the stored
fields (title, description, id) it had before the run. Second conjunct:
when the title lookup finds an existing local course, the course table is
returned unchanged and no course creation is counted — the course is
reused, its description never overwritten. -/
theorem moodle_import_preserves_existing_courses :
    (∀ (fcs : Except String (List RemoteCourse)) (fcc : Nat → Except String (List Sect))
        (db : Db), ∃ d, (moodle_import fcs fcc db).db.courses = db.courses ++ d) ∧
    (∀ (fcc : Nat → Except String (List Sect)) (acc : ImportAcc) (mc : RemoteCourse)
        (c : Course),
        acc.db.courses.find? (fun x => x.title == mc.fullname.getD "Untitled") = some c →
        (processCourse fcc acc mc).db.courses = acc.db.courses ∧
        (processCourse fcc acc mc).imported_courses = acc.imported_courses) := by
  constructor
  · intro fcs fcc db
    cases fcs with
    | error e => exact ⟨[], by simp [moodle_import]⟩
    | ok l =>
      obtain ⟨d, -, hd, -⟩ := foldl_processCourse_db_append fcc l ⟨db, 0, 0, 0⟩
      exact ⟨d, hd⟩
  · intro fcc acc mc c hf
    cases hc : fcc mc.id with
    | error err =>
      rw [processCourse_found_err hf hc]
      exact ⟨rfl, rfl⟩
    | ok sections =>
      rw [processCourse_found_ok hf hc]
      exact ⟨rfl, rfl⟩

/-- Witness for C8: a remote course whose title matches a pre-existing
local course leaves the course table and the creation count unchanged. -/
theorem moodle_import_preserves_existing_courses_witness :
    (processCourse (fun _ => Except.ok [])
        ⟨Db.mk [Course.mk 4 "C" "local edit"] [] 10, 0, 0, 0⟩
        (RemoteCourse.mk 9 (some "C") (some "remote desc"))).db.courses =
      [Course.mk 4 "C" "local edit"] ∧
    (processCourse (fun _ => Except.ok [])
        ⟨Db.mk [Course.mk 4 "C" "local edit"] [] 10, 0, 0, 0⟩
        (RemoteCourse.mk 9 (some "C") (some "remote desc"))).imported_courses = 0 :=
  moodle_import_preserves_existing_courses.2 (fun _ => Except.ok [])
    ⟨Db.mk [Course.mk 4 "C" "local edit"] [] 10, 0, 0, 0⟩
    (RemoteCourse.mk 9 (some "C") (some "remote desc")) (Course.mk 4 "C" "local edit")
    (by decide)

end LMS
